import Mathlib

/-!
Verification of the `argh` command-line argument classifier.

The definitions below are a shallow embedding of the most complete revision
of the library (`argh.cc` v0.3.2 together with `positional_arg.cc`):

* `positional_arg` mirrors the C++ `positional_arg` class: a value string
  plus an "owner" string.  The one-argument C++ constructor leaves the owner
  default-constructed (the empty string); `positional_arg.mk_value` models it.
* `argh` mirrors the `argh::argh` class state: the raw-order record `args`,
  the flag set `flags` (an `unordered_set`, modelled as a duplicate-free
  insertion list whose only observable is membership), the parameter map
  `parameters` (an `unordered_map`, modelled as an association list with
  overwrite-on-insert), the positional candidates, the `--` terminator flag
  `double_dash_set` and the pending option name `last_flag`.
* `argh.parse_argument`, `argh.parse_flag`, `argh.parse_positional_argument`,
  `argh.is_flag`, `argh.mark_parameter` are the corresponding member
  functions, translated clause by clause.
* `argh.ofCStrings` models the `argh(int argc, char *argv[])` constructor
  (loop `for (int i = 1; i < argc; i++)`), `argh.ofStrings` models
  `argh(int argc, std::string argv[])` (loop from `i = 0`).
* `argh.hasFlag` models `operator[](std::string)`, `argh.getParam` models
  `operator()(std::string)` (returning the string result together with the
  mutated object), `argh.posAt` models `operator[](int)` including the
  C++ cast of the `int` index to `long unsigned int`, and `argh.posCount`
  models `size()`.
-/

/-- The C++ `positional_arg` class: a candidate positional argument with its
optional owning option name (empty string = no owner). -/
structure positional_arg where
  owner : String
  value : String
deriving DecidableEq

/-- The one-argument C++ constructor `positional_arg(std::string value)`:
the owner member is default-constructed, i.e. the empty string. -/
def positional_arg.mk_value (value : String) : positional_arg :=
  ⟨"", value⟩

/-- The state of the C++ `argh::argh` class. -/
structure argh where
  args : List String
  flags : List String
  parameters : List (String × String)
  positional_arguments : List positional_arg
  double_dash_set : Bool
  last_flag : String
deriving DecidableEq

/-- `std::unordered_set<std::string>::insert`: membership-preserving insert
(observable behaviour is membership only). -/
def setInsert (s : List String) (x : String) : List String :=
  if x ∈ s then s else s ++ [x]

/-- `std::unordered_map` write `m[key] = val`: overwrite the binding if the
key is present, otherwise add it. -/
def mapInsert : List (String × String) → String → String → List (String × String)
  | [], key, val => [(key, val)]
  | (k, v) :: rest, key, val =>
    if k = key then (k, val) :: rest else (k, v) :: mapInsert rest key val

/-- `std::unordered_map` lookup (`count` / `operator[]` read). -/
def lookupParam : List (String × String) → String → Option String
  | [], _ => none
  | (k, v) :: rest, key => if k = key then some v else lookupParam rest key

/-- `argh::initialize()`: all collections empty, `double_dash_set = false`,
`last_flag = ""`. -/
def argh.initArgh : argh :=
  ⟨[], [], [], [], false, ""⟩

/-- `argh::is_flag`: length at least 2, not exactly `"--"`, first character
is a dash. -/
def argh.is_flag (arg : String) : Bool :=
  if arg.length < 2 then false
  else if arg = "--" then false
  else decide (arg.data.head? = some '-')

/-- One iteration of the short-cluster loop in `argh::parse_flag`:
`flag = "-" + arg.substr(i, 1); flags.insert(flag); last_flag = flag;`. -/
def argh.cluster_step (st : argh) (c : Char) : argh :=
  { st with flags := setInsert st.flags (String.mk ['-', c]),
            last_flag := String.mk ['-', c] }

/-- `argh::parse_flag`: the `=`-split branch, the long-option branch and the
short-cluster branch. -/
def argh.parse_flag (st : argh) (arg : String) : argh :=
  if arg.data.contains '=' then
    let key := String.mk (arg.data.takeWhile (fun ch => ch != '='))
    let value := String.mk ((arg.data.dropWhile (fun ch => ch != '=')).drop 1)
    { st with parameters := mapInsert st.parameters key value,
              flags := setInsert st.flags key,
              args := st.args ++ [arg],
              last_flag := "" }
  else if 2 ≤ arg.length ∧ arg.data.take 2 = ['-', '-'] then
    { st with flags := setInsert st.flags arg,
              args := st.args ++ [arg],
              last_flag := arg }
  else
    let st2 := (arg.data.drop 1).foldl argh.cluster_step st
    { st2 with args := st2.args ++ [arg] }

/-- `argh::parse_positional_argument`: when `last_flag` is non-empty the
token is recorded both as that option's parameter value and as a positional
candidate owned by it; otherwise as an ownerless candidate.  Either way
`last_flag` is cleared and the token is appended to the raw record. -/
def argh.parse_positional_argument (st : argh) (arg : String) : argh :=
  if 0 < st.last_flag.length then
    { st with parameters := mapInsert st.parameters st.last_flag arg,
              positional_arguments := st.positional_arguments ++ [⟨st.last_flag, arg⟩],
              last_flag := "",
              args := st.args ++ [arg] }
  else
    { st with positional_arguments := st.positional_arguments ++ [positional_arg.mk_value arg],
              last_flag := "",
              args := st.args ++ [arg] }

/-- `argh::parse_argument`: empty-token skip, post-terminator branch, the
`-` and `--` special cases, the option branch, and the fallthrough to
`parse_positional_argument`. -/
def argh.parse_argument (st : argh) (arg : String) : argh :=
  if arg.length = 0 then st
  else if st.double_dash_set then
    { st with args := st.args ++ [arg],
              positional_arguments := st.positional_arguments ++ [positional_arg.mk_value arg] }
  else if arg = "-" then
    let st2 := argh.parse_positional_argument st arg
    { st2 with last_flag := "" }
  else if arg = "--" then
    { st with args := st.args ++ [arg], double_dash_set := true, last_flag := "" }
  else if argh.is_flag arg then
    argh.parse_flag st arg
  else
    argh.parse_positional_argument st arg

/-- The constructor `argh(int argc, char *argv[])`: parses `argv[1]` up to
`argv[argc - 1]`, skipping `argv[0]`. -/
def argh.ofCStrings (argc : Nat) (argv : List String) : argh :=
  ((argv.take argc).drop 1).foldl argh.parse_argument argh.initArgh

/-- The constructor `argh(int argc, std::string argv[])`: parses `argv[0]`
up to `argv[argc - 1]`. -/
def argh.ofStrings (argc : Nat) (argv : List String) : argh :=
  (argv.take argc).foldl argh.parse_argument argh.initArgh

/-- One pass of the scan loop inside `argh::mark_parameter`: find the first
candidate whose owner matches and erase it (`none` when no candidate
matches). -/
def eraseFirstOwned : List positional_arg → String → Option (List positional_arg)
  | [], _ => none
  | p :: rest, arg =>
    if p.owner = arg then some rest
    else
      match eraseFirstOwned rest arg with
      | none => none
      | some l => some (p :: l)

/-- The recursion of `argh::mark_parameter`: erase the first matching
candidate and recurse until none matches.  Each successful erase removes
one element, so the list length bounds the recursion depth; the fuel is a
recursion bound, not a behavioural change. -/
def markPositionalsAux : Nat → List positional_arg → String → List positional_arg
  | 0, l, _ => l
  | fuel + 1, l, arg =>
    match eraseFirstOwned l arg with
    | none => l
    | some l2 => markPositionalsAux fuel l2 arg

/-- `argh::mark_parameter`: repeatedly erase positional candidates owned by
`arg`; no other member is touched, and the method never fails. -/
def argh.mark_parameter (st : argh) (arg : String) : argh :=
  { st with positional_arguments :=
      markPositionalsAux st.positional_arguments.length st.positional_arguments arg }

/-- `argh::operator[](std::string)`: flag membership. -/
def argh.hasFlag (st : argh) (name : String) : Bool :=
  st.flags.contains name

/-- `argh::operator()(std::string)`: first `mark_parameter(name)`, then
return the mapped value, or the empty string when absent.  The pair carries
the returned string together with the mutated object. -/
def argh.getParam (st : argh) (name : String) : String × argh :=
  let st2 := argh.mark_parameter st name
  match lookupParam st2.parameters name with
  | some v => (v, st2)
  | none => ("", st2)

/-- The C++ cast `(long unsigned int)index` of a (two's-complement) `int`
to a 64-bit unsigned integer: reduction modulo `2 ^ 64`. -/
def intToULong (i : Int) : Nat :=
  (i % (2 : Int) ^ 64).toNat

/-- `argh::operator[](int)`: positional lookup by index; the index is cast
to `long unsigned int` and compared against the vector size; out of range
yields the empty string. -/
def argh.posAt (st : argh) (index : Int) : String :=
  if intToULong index < st.positional_arguments.length then
    (st.positional_arguments.getD (intToULong index) (positional_arg.mk_value "")).value
  else ""

/-- `argh::size()`: the number of positional candidates currently held. -/
def argh.posCount (st : argh) : Nat :=
  st.positional_arguments.length

/-! ### Helper lemmas about `mark_parameter` -/

theorem eraseFirstOwned_none_filter (l : List positional_arg) (arg : String)
    (h : eraseFirstOwned l arg = none) :
    l.filter (fun p => !(p.owner == arg)) = l := by
  induction l with
  | nil => rfl
  | cons p rest ih =>
    by_cases hp : p.owner = arg
    · simp [eraseFirstOwned, hp] at h
    · rw [eraseFirstOwned, if_neg hp] at h
      cases he : eraseFirstOwned rest arg with
      | none => simp [List.filter_cons, hp, ih he]
      | some l3 => rw [he] at h; simp at h

theorem eraseFirstOwned_some_length (l : List positional_arg) (arg : String)
    (l2 : List positional_arg) (h : eraseFirstOwned l arg = some l2) :
    l2.length + 1 = l.length := by
  induction l generalizing l2 with
  | nil => simp [eraseFirstOwned] at h
  | cons p rest ih =>
    by_cases hp : p.owner = arg
    · simp only [eraseFirstOwned, if_pos hp, Option.some.injEq] at h
      simp [← h]
    · rw [eraseFirstOwned, if_neg hp] at h
      cases he : eraseFirstOwned rest arg with
      | none => rw [he] at h; simp at h
      | some l3 =>
        rw [he] at h
        simp only [Option.some.injEq] at h
        subst h
        have := ih l3 he
        simp
        omega

theorem eraseFirstOwned_some_filter (l : List positional_arg) (arg : String)
    (l2 : List positional_arg) (h : eraseFirstOwned l arg = some l2) :
    l2.filter (fun p => !(p.owner == arg)) = l.filter (fun p => !(p.owner == arg)) := by
  induction l generalizing l2 with
  | nil => simp [eraseFirstOwned] at h
  | cons p rest ih =>
    by_cases hp : p.owner = arg
    · simp only [eraseFirstOwned, if_pos hp, Option.some.injEq] at h
      simp [← h, List.filter_cons, hp]
    · rw [eraseFirstOwned, if_neg hp] at h
      cases he : eraseFirstOwned rest arg with
      | none => rw [he] at h; simp at h
      | some l3 =>
        rw [he] at h
        simp only [Option.some.injEq] at h
        subst h
        simp [List.filter_cons, hp, ih l3 he]

theorem markPositionalsAux_eq_filter (fuel : Nat) (l : List positional_arg) (arg : String)
    (h : l.length ≤ fuel) :
    markPositionalsAux fuel l arg = l.filter (fun p => !(p.owner == arg)) := by
  induction fuel generalizing l with
  | zero =>
    have : l = [] := List.length_eq_zero.mp (Nat.le_zero.mp h)
    subst this
    rfl
  | succ n ih =>
    rw [markPositionalsAux]
    cases he : eraseFirstOwned l arg with
    | none =>
      exact (eraseFirstOwned_none_filter l arg he).symm
    | some l2 =>
      have hlen := eraseFirstOwned_some_length l arg l2 he
      show markPositionalsAux n l2 arg = _
      rw [ih l2 (by omega)]
      exact eraseFirstOwned_some_filter l arg l2 he

theorem mark_parameter_eq_filter (st : argh) (arg : String) :
    argh.mark_parameter st arg
      = { st with positional_arguments :=
            st.positional_arguments.filter (fun p => !(p.owner == arg)) } := by
  unfold argh.mark_parameter
  rw [markPositionalsAux_eq_filter _ _ _ (Nat.le_refl _)]

/-! ### Helper lemmas about the map and set models -/

theorem lookupParam_mapInsert_self (m : List (String × String)) (key val : String) :
    lookupParam (mapInsert m key val) key = some val := by
  induction m with
  | nil => simp [mapInsert, lookupParam]
  | cons kv rest ih =>
    obtain ⟨k, v⟩ := kv
    by_cases hk : k = key
    · simp [mapInsert, lookupParam, hk]
    · simp [mapInsert, lookupParam, hk, ih]

theorem mem_setInsert_self (s : List String) (x : String) : x ∈ setInsert s x := by
  unfold setInsert
  by_cases h : x ∈ s
  · simp [h]
  · simp [h]

theorem mem_setInsert_of_mem (s : List String) (x y : String) (h : x ∈ s) :
    x ∈ setInsert s y := by
  unfold setInsert
  by_cases hy : y ∈ s <;> simp [hy, h]

theorem mem_of_mem_setInsert (s : List String) (x y : String) (h : x ∈ setInsert s y) :
    x ∈ s ∨ x = y := by
  unfold setInsert at h
  by_cases hy : y ∈ s
  · simp [hy] at h
    exact Or.inl h
  · simp [hy] at h
    exact h


/-! ### Claim theorems about marking and the query operations -/

/-- C1: for every classifier state and option name `n`, the parameter-value
query (`operator()` with a string) returns the value mapped to `n` in the
parameter map, or the empty string if `n` is absent, and as a side effect
removes from the positional sequence every candidate whose owner equals `n`,
leaving the flag set, the parameter map and the raw record untouched. -/
theorem C1_param_query_implicit_mark (st : argh) (n : String) :
    (argh.getParam st n).1 = (lookupParam st.parameters n).getD "" ∧
    (argh.getParam st n).2.positional_arguments
      = st.positional_arguments.filter (fun p => !(p.owner == n)) ∧
    (argh.getParam st n).2.flags = st.flags ∧
    (argh.getParam st n).2.parameters = st.parameters ∧
    (argh.getParam st n).2.args = st.args := by
  simp only [argh.getParam, mark_parameter_eq_filter]
  cases h : lookupParam st.parameters n <;> simp [h]

/-- C3: `mark_parameter` removes exactly the positional candidates whose
owner equals the given name, changes nothing else, is total, and is a no-op
when the name owns no candidate. -/
theorem C3_mark_parameter_removes_owned (st : argh) (n : String) :
    (argh.mark_parameter st n).positional_arguments
      = st.positional_arguments.filter (fun p => !(p.owner == n)) ∧
    (argh.mark_parameter st n).flags = st.flags ∧
    (argh.mark_parameter st n).parameters = st.parameters ∧
    (argh.mark_parameter st n).args = st.args ∧
    (argh.mark_parameter st n).double_dash_set = st.double_dash_set ∧
    (argh.mark_parameter st n).last_flag = st.last_flag ∧
    ((∀ p ∈ st.positional_arguments, p.owner ≠ n) → argh.mark_parameter st n = st) := by
  refine ⟨?_, ?_, ?_, ?_, ?_, ?_, ?_⟩
  · rw [mark_parameter_eq_filter]
  · rw [mark_parameter_eq_filter]
  · rw [mark_parameter_eq_filter]
  · rw [mark_parameter_eq_filter]
  · rw [mark_parameter_eq_filter]
  · rw [mark_parameter_eq_filter]
  · intro hnone
    rw [mark_parameter_eq_filter,
      List.filter_eq_self.mpr (fun a ha => by simp [hnone a ha])]

/-- Witness for C3: marking a name that owns no candidate is a no-op on a
concretely constructed classifier. -/
theorem C3_mark_parameter_removes_owned_witness :
    argh.mark_parameter (argh.ofStrings 1 ["test"]) "-o" = argh.ofStrings 1 ["test"] :=
  (C3_mark_parameter_removes_owned (argh.ofStrings 1 ["test"]) "-o").2.2.2.2.2.2
    (by decide)

/-- C8: calling `mark_parameter` twice in a row leaves the classifier in the
same state as calling it once. -/
theorem C8_mark_parameter_idempotent (st : argh) (n : String) :
    argh.mark_parameter (argh.mark_parameter st n) n = argh.mark_parameter st n := by
  have h2 : ∀ l : List positional_arg,
      (l.filter (fun p => !(p.owner == n))).filter (fun p => !(p.owner == n))
        = l.filter (fun p => !(p.owner == n)) :=
    fun l => List.filter_eq_self.mpr (fun a ha => (List.mem_filter.mp ha).2)
  simp [mark_parameter_eq_filter, h2]

/-- C7: positional lookup by `int` index returns the empty string for every
index outside the current range, including negative indices (which the C++
cast sends to huge unsigned values); no error is ever signalled.  The size
bound reflects that a `std::vector` held in memory is far smaller than
`2 ^ 63` entries. -/
theorem C7_posAt_out_of_range (st : argh) (i : Int)
    (hlo : -(2 ^ 31) ≤ i) (hhi : i < 2 ^ 31)
    (hsz : (st.positional_arguments.length : Int) < 2 ^ 63)
    (hout : i < 0 ∨ (argh.posCount st : Int) ≤ i) :
    argh.posAt st i = "" := by
  unfold argh.posAt intToULong
  rw [if_neg]
  simp only [argh.posCount] at hout
  have h64 : (2 : Int) ^ 64 = 18446744073709551616 := by norm_num
  have h63 : (2 : Int) ^ 63 = 9223372036854775808 := by norm_num
  have h31 : (2 : Int) ^ 31 = 2147483648 := by norm_num
  rw [h64]
  rw [h63] at hsz
  rw [h31] at hlo hhi
  omega

/-- Witness for C7: a concrete classifier with two positional candidates
returns the empty string both at index `-1` and at index `2`. -/
theorem C7_posAt_out_of_range_witness :
    argh.posAt (argh.ofStrings 2 ["a", "b"]) (-1) = "" ∧
    argh.posAt (argh.ofStrings 2 ["a", "b"]) 2 = "" := by
  constructor
  · exact C7_posAt_out_of_range _ _ (by decide) (by decide) (by decide) (Or.inl (by decide))
  · exact C7_posAt_out_of_range _ _ (by decide) (by decide) (by decide) (Or.inr (by decide))

/-! ### Helper lemmas about branch routing in `parse_argument` -/

theorem string_length_data (s : String) : s.length = s.data.length := rfl

theorem string_ne_empty_length (s : String) (h : s ≠ "") : s.length ≠ 0 := by
  intro h0
  exact h (String.ext (List.length_eq_zero.mp h0))

theorem is_flag_ne_two (arg : String) (h : argh.is_flag arg = true) :
    2 ≤ arg.length ∧ arg ≠ "--" ∧ arg.data.head? = some '-' := by
  unfold argh.is_flag at h
  by_cases h1 : arg.length < 2
  · simp [h1] at h
  · by_cases h2 : arg = "--"
    · simp [h1, h2] at h
    · simp [h1, h2] at h
      exact ⟨by omega, h2, h⟩

theorem parse_argument_flag_path (st : argh) (arg : String)
    (hdd : st.double_dash_set = false) (hflag : argh.is_flag arg = true) :
    argh.parse_argument st arg = argh.parse_flag st arg := by
  obtain ⟨hlen, hne2, _⟩ := is_flag_ne_two arg hflag
  have hne0 : ¬ arg.length = 0 := by omega
  have hne1 : arg ≠ "-" := by
    intro h
    subst h
    simp [string_length_data] at hlen
  unfold argh.parse_argument
  rw [if_neg hne0, if_neg (by simp [hdd]), if_neg hne1, if_neg hne2, if_pos hflag]

theorem parse_argument_bare_path (st : argh) (arg : String)
    (hdd : st.double_dash_set = false) (hne0 : arg ≠ "") (hne1 : arg ≠ "-")
    (hne2 : arg ≠ "--") (hflag : argh.is_flag arg = false) :
    argh.parse_argument st arg = argh.parse_positional_argument st arg := by
  unfold argh.parse_argument
  rw [if_neg (string_ne_empty_length arg hne0), if_neg (by simp [hdd]),
    if_neg hne1, if_neg hne2, if_neg (by simp [hflag])]

/-! ### Claim theorems about the terminator, the constructors and `-` -/

/-- C4: once the `--` terminator has been scanned (`double_dash_set`), every
subsequent non-empty token is appended to the positional sequence as an
ownerless candidate and nothing else changes (in particular it is never
recorded as a flag or parameter); the `--` token that sets the terminator is
itself not emitted as positional; and on the concrete input
`["test", "--", "-v", "file"]` the flag `-v` is absent and the positional
values are `["test", "-v", "file"]`. -/
theorem C4_terminator_scan (st : argh) (t : String)
    (hdd : st.double_dash_set = true) (hne : t ≠ "") :
    argh.parse_argument st t
      = { st with args := st.args ++ [t],
                  positional_arguments :=
                    st.positional_arguments ++ [positional_arg.mk_value t] } ∧
    (∀ st2 : argh, st2.double_dash_set = false →
       argh.parse_argument st2 "--"
         = { st2 with args := st2.args ++ ["--"], double_dash_set := true,
                      last_flag := "" }) ∧
    argh.hasFlag (argh.ofStrings 4 ["test", "--", "-v", "file"]) "-v" = false ∧
    (argh.ofStrings 4 ["test", "--", "-v", "file"]).positional_arguments.map
        positional_arg.value
      = ["test", "-v", "file"] := by
  refine ⟨?_, ?_, by decide, by decide⟩
  · unfold argh.parse_argument
    rw [if_neg (string_ne_empty_length t hne), if_pos hdd]
  · intro st2 hdd2
    unfold argh.parse_argument
    rw [if_neg (by decide : ¬ ("--" : String).length = 0), if_neg (by simp [hdd2]),
      if_neg (by decide : ("--" : String) ≠ "-"), if_pos rfl]

/-- Witness for C4: a concrete post-terminator state absorbs `-x` as an
ownerless positional candidate. -/
theorem C4_terminator_scan_witness :
    argh.parse_argument (argh.ofStrings 2 ["a", "--"]) "-x"
      = { argh.ofStrings 2 ["a", "--"] with
          args := (argh.ofStrings 2 ["a", "--"]).args ++ ["-x"],
          positional_arguments :=
            (argh.ofStrings 2 ["a", "--"]).positional_arguments
              ++ [positional_arg.mk_value "-x"] } :=
  (C4_terminator_scan (argh.ofStrings 2 ["a", "--"]) "-x" (by decide) (by decide)).1

/-- Counterexample to C5: with the `(argc, char *argv[])` constructor and
the one-element array `["test"]`, the program name at index 0 is *not*
recorded as positional index 0 — the positional sequence is empty. -/
theorem C5_counterexample_program_name :
    argh.posAt (argh.ofCStrings 1 ["test"]) 0 ≠ "test" ∧
    argh.posCount (argh.ofCStrings 1 ["test"]) = 0 := by
  decide

/-- C5 (amended): the `(argc, char *argv[])` constructor skips the entry at
index 0 entirely — it behaves exactly as the explicit string-sequence
constructor applied to the remaining `argc - 1` entries — while the
`(argc, std::string argv[])` constructor classifies every entry from
index 0, so a plain first entry such as a program name is recorded there as
positional index 0. -/
theorem C5_amended_constructor_offsets (argc : Nat) (argv : List String) :
    argh.ofCStrings argc argv = argh.ofStrings (argc - 1) (argv.drop 1) ∧
    argh.posAt (argh.ofStrings 1 ["test"]) 0 = "test" := by
  constructor
  · unfold argh.ofCStrings argh.ofStrings
    rw [List.drop_take]
  · decide

/-- Counterexample to C9: on the input `["-o", "-"]` the single-dash token
is recorded as a positional candidate *owned by* `-o`, and it *is* entered
into the parameter map as the value of `-o`. -/
theorem C9_counterexample_single_dash_claimed :
    (argh.ofStrings 2 ["-o", "-"]).positional_arguments = [⟨"-o", "-"⟩] ∧
    lookupParam (argh.ofStrings 2 ["-o", "-"]).parameters "-o" = some "-" := by
  decide

/-- C9 (amended): before the terminator, the token `-` is recorded as a
positional candidate whose owner is the pending option name (so ownerless
exactly when no option was awaiting a value); when an option was awaiting a
value, `-` is entered into the parameter map as that option's value; the
flag set is untouched and the "most recent option" state is cleared, never
set. -/
theorem C9_amended_single_dash (st : argh) (hdd : st.double_dash_set = false) :
    (argh.parse_argument st "-").positional_arguments
      = st.positional_arguments ++ [⟨st.last_flag, "-"⟩] ∧
    (argh.parse_argument st "-").last_flag = "" ∧
    (argh.parse_argument st "-").flags = st.flags ∧
    (argh.parse_argument st "-").parameters
      = (if 0 < st.last_flag.length then mapInsert st.parameters st.last_flag "-"
         else st.parameters) := by
  have hstep : argh.parse_argument st "-"
      = { argh.parse_positional_argument st "-" with last_flag := "" } := by
    unfold argh.parse_argument
    rw [if_neg (by decide : ¬ ("-" : String).length = 0), if_neg (by simp [hdd]),
      if_pos rfl]
  rw [hstep]
  unfold argh.parse_positional_argument
  by_cases hlf : 0 < st.last_flag.length
  · rw [if_pos hlf, if_pos hlf]
    exact ⟨rfl, rfl, rfl, rfl⟩
  · rw [if_neg hlf, if_neg hlf]
    refine ⟨?_, rfl, rfl, rfl⟩
    have : st.last_flag = "" := by
      apply String.ext
      have : st.last_flag.length = 0 := by omega
      rw [string_length_data] at this
      simpa using List.length_eq_zero.mp this
    simp [this, positional_arg.mk_value]

/-- Witness for C9 (amended): applied to a state in which `-o` awaits a
value, so `-` is claimed by `-o` as both owner and parameter value. -/
theorem C9_amended_single_dash_witness :
    (argh.parse_argument (argh.ofStrings 1 ["-o"]) "-").positional_arguments
      = (argh.ofStrings 1 ["-o"]).positional_arguments
          ++ [⟨(argh.ofStrings 1 ["-o"]).last_flag, "-"⟩] :=
  (C9_amended_single_dash (argh.ofStrings 1 ["-o"]) (by decide)).1

/-! ### Helper lemmas about flags, the `=`-split branch and short clusters -/

theorem hasFlag_iff_mem (st : argh) (x : String) :
    argh.hasFlag st x = true ↔ x ∈ st.flags := by
  show st.flags.elem x = true ↔ x ∈ st.flags
  exact List.elem_iff

theorem parse_flag_eq_branch (st : argh) (arg : String)
    (heq : arg.data.contains '=' = true) :
    argh.parse_flag st arg
      = { st with
          parameters := mapInsert st.parameters
            (String.mk (arg.data.takeWhile (fun ch => ch != '=')))
            (String.mk ((arg.data.dropWhile (fun ch => ch != '=')).drop 1)),
          flags := setInsert st.flags
            (String.mk (arg.data.takeWhile (fun ch => ch != '='))),
          args := st.args ++ [arg],
          last_flag := "" } := by
  unfold argh.parse_flag
  rw [if_pos heq]

theorem parse_argument_dash_path (st : argh) (hdd : st.double_dash_set = false) :
    argh.parse_argument st "-"
      = { argh.parse_positional_argument st "-" with last_flag := "" } := by
  unfold argh.parse_argument
  rw [if_neg (by decide : ¬ ("-" : String).length = 0), if_neg (by simp [hdd]),
    if_pos rfl]

/-- C10: the `=`-splitting rule applies to every option-shaped token, short
forms included: the prefix before the first `=` is recorded as both a flag
and a parameter holding the remainder, nothing is added to the positional
sequence, and no value is awaited; concretely `-a=b` yields flag `-a` with
parameter value `b` and no positional entry. -/
theorem C10_eq_split_any_option (st : argh) (arg : String)
    (hdd : st.double_dash_set = false)
    (hflag : argh.is_flag arg = true)
    (heq : arg.data.contains '=' = true) :
    argh.hasFlag (argh.parse_argument st arg)
        (String.mk (arg.data.takeWhile (fun ch => ch != '='))) = true ∧
    lookupParam (argh.parse_argument st arg).parameters
        (String.mk (arg.data.takeWhile (fun ch => ch != '=')))
      = some (String.mk ((arg.data.dropWhile (fun ch => ch != '=')).drop 1)) ∧
    (argh.parse_argument st arg).positional_arguments = st.positional_arguments ∧
    (argh.parse_argument st arg).last_flag = "" ∧
    argh.hasFlag (argh.ofStrings 1 ["-a=b"]) "-a" = true ∧
    lookupParam (argh.ofStrings 1 ["-a=b"]).parameters "-a" = some "b" ∧
    (argh.ofStrings 1 ["-a=b"]).positional_arguments = [] := by
  rw [parse_argument_flag_path st arg hdd hflag, parse_flag_eq_branch st arg heq]
  refine ⟨?_, ?_, rfl, rfl, by decide, by decide, by decide⟩
  · exact (hasFlag_iff_mem _ _).mpr (mem_setInsert_self _ _)
  · exact lookupParam_mapInsert_self _ _ _

/-- Witness for C10: the split applied to the concrete token `-a=b`. -/
theorem C10_eq_split_any_option_witness :
    argh.hasFlag (argh.parse_argument argh.initArgh "-a=b")
        (String.mk ("-a=b".data.takeWhile (fun ch => ch != '='))) = true :=
  (C10_eq_split_any_option argh.initArgh "-a=b" rfl (by decide) (by decide)).1

theorem cluster_foldl_fields (cs : List Char) (st : argh) :
    ((cs.foldl argh.cluster_step st).args = st.args) ∧
    ((cs.foldl argh.cluster_step st).parameters = st.parameters) ∧
    ((cs.foldl argh.cluster_step st).positional_arguments = st.positional_arguments) ∧
    ((cs.foldl argh.cluster_step st).double_dash_set = st.double_dash_set) := by
  induction cs generalizing st with
  | nil => exact ⟨rfl, rfl, rfl, rfl⟩
  | cons c cs ih => exact ih (argh.cluster_step st c)

theorem cluster_foldl_flags_mono (cs : List Char) (st : argh) (x : String)
    (h : x ∈ st.flags) :
    x ∈ (cs.foldl argh.cluster_step st).flags := by
  induction cs generalizing st with
  | nil => exact h
  | cons c cs ih => exact ih _ (mem_setInsert_of_mem _ _ _ h)

theorem cluster_foldl_flags_mem (cs : List Char) (st : argh) (c : Char)
    (h : c ∈ cs) :
    String.mk ['-', c] ∈ (cs.foldl argh.cluster_step st).flags := by
  revert h
  induction cs generalizing st with
  | nil => intro h; cases h
  | cons d ds ih =>
    intro h
    rcases List.mem_cons.mp h with h1 | h2
    · subst h1
      exact cluster_foldl_flags_mono ds _ _ (mem_setInsert_self _ _)
    · exact ih (argh.cluster_step st d) h2

theorem cluster_foldl_last_flag (ds : List Char) (c : Char) (st : argh) :
    ((ds ++ [c]).foldl argh.cluster_step st).last_flag = String.mk ['-', c] := by
  rw [List.foldl_append]
  rfl

/-- C2: parsing a short option cluster `-d₁…dₖc` (no `=`, second character
not a dash) records `-dᵢ` and `-c` as flags and leaves `-c`, the *last*
synthesized short name, as the option awaiting a value, so that a following
bare token becomes `-c`'s parameter value; concretely, the input
`["test", "-vo", "output.txt", "input.txt"]` yields flags `-v` and `-o`,
parameter value `output.txt` for `-o`, and after that read the positional
sequence is `["test", "input.txt"]` with count 2. -/
theorem C2_short_cluster (st : argh) (ds : List Char) (c : Char)
    (hdd : st.double_dash_set = false)
    (heq : ('-' :: (ds ++ [c])).contains '=' = false)
    (htake : ('-' :: (ds ++ [c])).take 2 ≠ ['-', '-']) :
    (∀ d ∈ ds ++ [c], String.mk ['-', d]
        ∈ (argh.parse_argument st (String.mk ('-' :: (ds ++ [c])))).flags) ∧
    (argh.parse_argument st (String.mk ('-' :: (ds ++ [c])))).last_flag
      = String.mk ['-', c] ∧
    (∀ t : String, t ≠ "" → t ≠ "--" → argh.is_flag t = false →
      lookupParam
        (argh.parse_argument
          (argh.parse_argument st (String.mk ('-' :: (ds ++ [c])))) t).parameters
        (String.mk ['-', c]) = some t) ∧
    argh.hasFlag (argh.ofStrings 4 ["test", "-vo", "output.txt", "input.txt"]) "-v"
      = true ∧
    argh.hasFlag (argh.ofStrings 4 ["test", "-vo", "output.txt", "input.txt"]) "-o"
      = true ∧
    (argh.getParam (argh.ofStrings 4 ["test", "-vo", "output.txt", "input.txt"]) "-o").1
      = "output.txt" ∧
    argh.posAt
        (argh.getParam (argh.ofStrings 4 ["test", "-vo", "output.txt", "input.txt"]) "-o").2
        0 = "test" ∧
    argh.posAt
        (argh.getParam (argh.ofStrings 4 ["test", "-vo", "output.txt", "input.txt"]) "-o").2
        1 = "input.txt" ∧
    argh.posCount
        (argh.getParam (argh.ofStrings 4 ["test", "-vo", "output.txt", "input.txt"]) "-o").2
      = 2 := by
  have hne2 : String.mk ('-' :: (ds ++ [c])) ≠ "--" := by
    intro h
    apply htake
    have hd : '-' :: (ds ++ [c]) = ['-', '-'] := congrArg String.data h
    rw [hd]
    rfl
  have hflag : argh.is_flag (String.mk ('-' :: (ds ++ [c]))) = true := by
    unfold argh.is_flag
    rw [if_neg (by simp [string_length_data]), if_neg hne2]
    rfl
  have hroute := parse_argument_flag_path st _ hdd hflag
  have hcluster : argh.parse_flag st (String.mk ('-' :: (ds ++ [c])))
      = { (ds ++ [c]).foldl argh.cluster_step st with
          args := ((ds ++ [c]).foldl argh.cluster_step st).args
                    ++ [String.mk ('-' :: (ds ++ [c]))] } := by
    unfold argh.parse_flag
    rw [if_neg (by simpa using heq), if_neg (fun h => htake h.2)]
    rfl
  rw [hroute, hcluster]
  have hdd2 : ((ds ++ [c]).foldl argh.cluster_step st).double_dash_set = false := by
    rw [(cluster_foldl_fields (ds ++ [c]) st).2.2.2, hdd]
  have hlf2 : ((ds ++ [c]).foldl argh.cluster_step st).last_flag
      = String.mk ['-', c] := cluster_foldl_last_flag ds c st
  refine ⟨?_, ?_, ?_, by decide, by decide, by decide, by decide, by decide, by decide⟩
  · intro d hd
    exact cluster_foldl_flags_mem (ds ++ [c]) st d hd
  · exact hlf2
  · intro t ht0 ht2 htf
    have hlfpos : 0 < ({ (ds ++ [c]).foldl argh.cluster_step st with
        args := ((ds ++ [c]).foldl argh.cluster_step st).args
                  ++ [String.mk ('-' :: (ds ++ [c]))] } : argh).last_flag.length := by
      show 0 < ((ds ++ [c]).foldl argh.cluster_step st).last_flag.length
      rw [hlf2]
      show (0 : Nat) < 2
      decide
    by_cases ht1 : t = "-"
    · subst ht1
      rw [parse_argument_dash_path _ (by exact hdd2)]
      show lookupParam (argh.parse_positional_argument _ "-").parameters _ = _
      unfold argh.parse_positional_argument
      rw [if_pos hlfpos]
      show lookupParam (mapInsert _ _ "-") _ = _
      rw [show ({ (ds ++ [c]).foldl argh.cluster_step st with
            args := ((ds ++ [c]).foldl argh.cluster_step st).args
                      ++ [String.mk ('-' :: (ds ++ [c]))] } : argh).last_flag
          = String.mk ['-', c] from hlf2]
      exact lookupParam_mapInsert_self _ _ _
    · rw [parse_argument_bare_path _ t (by exact hdd2) ht0 ht1 ht2 htf]
      unfold argh.parse_positional_argument
      rw [if_pos hlfpos]
      show lookupParam (mapInsert _ _ t) _ = _
      rw [show ({ (ds ++ [c]).foldl argh.cluster_step st with
            args := ((ds ++ [c]).foldl argh.cluster_step st).args
                      ++ [String.mk ('-' :: (ds ++ [c]))] } : argh).last_flag
          = String.mk ['-', c] from hlf2]
      exact lookupParam_mapInsert_self _ _ _

/-- Witness for C2: the cluster `-vo` applied from the initial state records
the flag `-v`. -/
theorem C2_short_cluster_witness :
    String.mk ['-', 'v']
      ∈ (argh.parse_argument argh.initArgh (String.mk ('-' :: (['v'] ++ ['o'])))).flags :=
  (C2_short_cluster argh.initArgh ['v'] 'o' rfl (by decide) (by decide)).1 'v' (by decide)

/-! ### Helper lemmas: no flag name ever contains the character `=` -/

theorem contains_eq_mem_char (l : List Char) (a : Char) :
    l.contains a = true ↔ a ∈ l := by
  show l.elem a = true ↔ a ∈ l
  exact List.elem_iff

theorem contains_false_iff (l : List Char) (a : Char) :
    l.contains a = false ↔ a ∉ l := by
  constructor
  · intro h hm
    rw [(contains_eq_mem_char l a).mpr hm] at h
    cases h
  · intro h
    cases hb : l.contains a
    · rfl
    · exact absurd ((contains_eq_mem_char l a).mp hb) h

theorem takeWhile_ne_eq_contains (l : List Char) :
    (l.takeWhile (fun ch => ch != '=')).contains '=' = false := by
  rw [contains_false_iff]
  intro hm
  have := List.mem_takeWhile_imp hm
  simp at this

theorem contains_drop_false (l : List Char) (k : Nat)
    (h : l.contains '=' = false) : (l.drop k).contains '=' = false := by
  rw [contains_false_iff] at h ⊢
  intro hm
  exact h (List.mem_of_mem_drop hm)

theorem takeWhile_ne_eq_append (l r : List Char) (hl : l.contains '=' = false) :
    (l ++ '=' :: r).takeWhile (fun ch => ch != '=') = l ∧
    (l ++ '=' :: r).dropWhile (fun ch => ch != '=') = '=' :: r := by
  induction l with
  | nil => constructor <;> simp [List.takeWhile_cons, List.dropWhile_cons]
  | cons a as ih =>
    rw [contains_false_iff] at hl
    have ha : (a != '=') = true := by
      simp only [bne_iff_ne, ne_eq]
      intro hEq
      exact hl (by simp [hEq])
    have has : as.contains '=' = false := by
      rw [contains_false_iff]
      intro hm
      exact hl (by simp [hm])
    obtain ⟨ht, hd⟩ := ih has
    constructor
    · simp only [List.cons_append, List.takeWhile_cons, ha, if_true]
      rw [ht]
    · simp only [List.cons_append, List.dropWhile_cons, ha, if_true]
      rw [hd]

theorem parse_positional_flags (st : argh) (t : String) :
    (argh.parse_positional_argument st t).flags = st.flags := by
  unfold argh.parse_positional_argument
  by_cases h : 0 < st.last_flag.length
  · rw [if_pos h]
  · rw [if_neg h]

theorem flags_no_eq_cluster (cs : List Char) (st : argh)
    (hcs : cs.contains '=' = false)
    (h : ∀ f ∈ st.flags, f.data.contains '=' = false) :
    ∀ f ∈ (cs.foldl argh.cluster_step st).flags, f.data.contains '=' = false := by
  revert hcs
  induction cs generalizing st with
  | nil => intro _; exact h
  | cons d ds ih =>
    intro hcs
    rw [contains_false_iff] at hcs
    have hd : ¬ d = '=' := fun hEq => hcs (by simp [hEq])
    have hds : ds.contains '=' = false := by
      rw [contains_false_iff]
      intro hm
      exact hcs (by simp [hm])
    refine ih (argh.cluster_step st d) ?_ hds
    intro f hf
    rcases mem_of_mem_setInsert _ _ _ hf with hin | hkey
    · exact h f hin
    · subst hkey
      rw [contains_false_iff]
      intro hm
      simp at hm
      exact hd hm.symm

theorem parse_argument_flags_no_eq (st : argh) (arg : String)
    (h : ∀ f ∈ st.flags, f.data.contains '=' = false) :
    ∀ f ∈ (argh.parse_argument st arg).flags, f.data.contains '=' = false := by
  unfold argh.parse_argument
  by_cases h0 : arg.length = 0
  · rw [if_pos h0]; exact h
  rw [if_neg h0]
  by_cases hdd : st.double_dash_set = true
  · rw [if_pos hdd]; exact h
  rw [if_neg hdd]
  by_cases h1 : arg = "-"
  · rw [if_pos h1]
    have hfl : ({ argh.parse_positional_argument st arg with last_flag := "" } : argh).flags
        = st.flags := parse_positional_flags st arg
    intro f hf
    exact h f (hfl ▸ hf)
  rw [if_neg h1]
  by_cases h2 : arg = "--"
  · rw [if_pos h2]; exact h
  rw [if_neg h2]
  by_cases h3 : argh.is_flag arg = true
  · rw [if_pos h3]
    unfold argh.parse_flag
    by_cases h4 : arg.data.contains '=' = true
    · rw [if_pos h4]
      intro f hf
      rcases mem_of_mem_setInsert _ _ _ hf with hin | hkey
      · exact h f hin
      · subst hkey
        exact takeWhile_ne_eq_contains arg.data
    · rw [if_neg h4]
      have h4f : arg.data.contains '=' = false := by simpa using h4
      by_cases h5 : 2 ≤ arg.length ∧ arg.data.take 2 = ['-', '-']
      · rw [if_pos h5]
        intro f hf
        rcases mem_of_mem_setInsert _ _ _ hf with hin | hkey
        · exact h f hin
        · subst hkey
          exact h4f
      · rw [if_neg h5]
        intro f hf
        exact flags_no_eq_cluster (arg.data.drop 1) st
          (contains_drop_false arg.data 1 h4f) h f hf
  · rw [if_neg (by simpa using h3)]
    have hfl : (argh.parse_positional_argument st arg).flags = st.flags :=
      parse_positional_flags st arg
    intro f hf
    exact h f (hfl ▸ hf)

theorem ofStrings_flags_no_eq (argc : Nat) (argv : List String) :
    ∀ f ∈ (argh.ofStrings argc argv).flags, f.data.contains '=' = false := by
  unfold argh.ofStrings
  generalize argv.take argc = tokens
  have hgen : ∀ (ts : List String) (st : argh),
      (∀ f ∈ st.flags, f.data.contains '=' = false) →
      ∀ f ∈ (ts.foldl argh.parse_argument st).flags, f.data.contains '=' = false := by
    intro ts
    induction ts with
    | nil => intro st hst; exact hst
    | cons t ts ih =>
      intro st hst
      exact ih _ (parse_argument_flags_no_eq st t hst)
  exact hgen tokens argh.initArgh (fun f hf => absurd hf (List.not_mem_nil f))

/-- C6: an `=`-joined long option `--name=value` records `--name` as a flag
holding parameter value `value`, never records the whole `--name=value`
token as a flag (no flag name ever contains `=`), and adds nothing to the
positional sequence; concretely `["test", "--output=out.txt", "input.txt"]`
yields parameter `out.txt` for `--output` and the positional values
`["test", "input.txt"]` from the start. -/
theorem C6_eq_joined_long_option (st : argh) (n v : String)
    (hdd : st.double_dash_set = false)
    (hn : n.data.contains '=' = false) :
    argh.hasFlag (argh.parse_argument st ("--" ++ n ++ "=" ++ v)) ("--" ++ n) = true ∧
    lookupParam (argh.parse_argument st ("--" ++ n ++ "=" ++ v)).parameters ("--" ++ n)
      = some v ∧
    (argh.parse_argument st ("--" ++ n ++ "=" ++ v)).positional_arguments
      = st.positional_arguments ∧
    (∀ (argc : Nat) (argv : List String) (name : String),
       name.data.contains '=' = true →
       argh.hasFlag (argh.ofStrings argc argv) name = false) ∧
    (argh.getParam (argh.ofStrings 3 ["test", "--output=out.txt", "input.txt"]) "--output").1
      = "out.txt" ∧
    (argh.ofStrings 3 ["test", "--output=out.txt", "input.txt"]).positional_arguments.map
        positional_arg.value
      = ["test", "input.txt"] := by
  have hAdata : ("--" ++ n ++ "=" ++ v).data = ('-' :: '-' :: n.data) ++ '=' :: v.data := by
    simp [String.data_append]
  have hl : ('-' :: '-' :: n.data).contains '=' = false := by
    rw [contains_false_iff]
    intro hm
    simp at hm
    exact (contains_false_iff n.data '=').mp hn hm
  have hcontains : ("--" ++ n ++ "=" ++ v).data.contains '=' = true := by
    rw [hAdata, contains_eq_mem_char]
    simp
  have hlen : 2 ≤ ("--" ++ n ++ "=" ++ v).length := by
    rw [string_length_data, hAdata]
    simp
  have hne2 : ("--" ++ n ++ "=" ++ v) ≠ "--" := by
    intro h
    have hd := congrArg String.data h
    rw [hAdata] at hd
    have hlen2 := congrArg List.length hd
    simp at hlen2
  have hflag : argh.is_flag ("--" ++ n ++ "=" ++ v) = true := by
    unfold argh.is_flag
    rw [if_neg (by omega), if_neg hne2]
    have hh : ("--" ++ n ++ "=" ++ v).data.head? = some '-' := by
      rw [hAdata]
      rfl
    rw [hh]
    rfl
  have hkey : String.mk (("--" ++ n ++ "=" ++ v).data.takeWhile (fun ch => ch != '='))
      = "--" ++ n := by
    rw [hAdata, (takeWhile_ne_eq_append ('-' :: '-' :: n.data) v.data hl).1]
    exact String.ext (by simp [String.data_append])
  have hval : String.mk ((("--" ++ n ++ "=" ++ v).data.dropWhile (fun ch => ch != '=')).drop 1)
      = v := by
    rw [hAdata, (takeWhile_ne_eq_append ('-' :: '-' :: n.data) v.data hl).2]
    rfl
  rw [parse_argument_flag_path st _ hdd hflag, parse_flag_eq_branch st _ hcontains,
    hkey, hval]
  refine ⟨?_, ?_, rfl, ?_, by decide, by decide⟩
  · exact (hasFlag_iff_mem _ _).mpr (mem_setInsert_self _ _)
  · exact lookupParam_mapInsert_self _ _ _
  · intro argc argv name hname
    cases hfb : argh.hasFlag (argh.ofStrings argc argv) name with
    | false => rfl
    | true =>
      have hmem := (hasFlag_iff_mem _ _).mp hfb
      have hno := ofStrings_flags_no_eq argc argv name hmem
      rw [hname] at hno
      cases hno

/-- Witness for C6: the split applied to the concrete token built from
`--`, `n`, `=`, `5`. -/
theorem C6_eq_joined_long_option_witness :
    argh.hasFlag (argh.parse_argument argh.initArgh ("--" ++ "n" ++ "=" ++ "5"))
        ("--" ++ "n") = true :=
  (C6_eq_joined_long_option argh.initArgh "n" "5" rfl (by decide)).1
